import Mathlib

/-!
Verification of the deterministic event/object seed pipeline of
`columnflow/production/cms/seeds.py` against its natural-language
specification, via a shallow embedding of the producers
`deterministic_event_seeds`, `deterministic_jet_seeds` and
`deterministic_seeds`.

All machine arithmetic is `np.uint64`; it is embedded as `Nat` with
explicit reduction modulo `2 ^ 64`.  The SHA-256 digest of the `hashlib`
library and the prime table of `columnflow.util` are external to the
repository sources; they are carried as parameters of a context
structure (`Ctx`), so every theorem is proved for an arbitrary digest
function and an arbitrary prime table.
-/

/-- The modulus `2 ^ 64` of all `np.uint64` arithmetic in the source. -/
def M64 : Nat := 18446744073709551616

theorem M64_eq : M64 = 2 ^ 64 := by decide

theorem M64_pos : 0 < M64 := by decide

/-- Wrapping 64-bit addition (`np.uint64` `+`). -/
def add64 (a b : Nat) : Nat := (a + b) % M64

/-- Wrapping 64-bit multiplication (`np.uint64` `*`). -/
def mul64 (a b : Nat) : Nat := (a * b) % M64

theorem add64_lt (a b : Nat) : add64 a b < M64 := Nat.mod_lt _ M64_pos

theorem mul64_lt (a b : Nat) : mul64 a b < M64 := Nat.mod_lt _ M64_pos

theorem add64_mod_left (a b : Nat) : add64 (a % M64) b = add64 a b := by
  simp [add64, Nat.add_mod, Nat.mod_mod_of_dvd]

theorem add64_mod_right (a b : Nat) : add64 a (b % M64) = add64 a b := by
  simp [add64, Nat.add_mod]

theorem mul64_mod_left (a b : Nat) : mul64 (a % M64) b = mul64 a b := by
  simp [mul64, Nat.mul_mod]

theorem mul64_mod_right (a b : Nat) : mul64 a (b % M64) = mul64 a b := by
  simp [mul64, Nat.mul_mod]

theorem add64_eq_mod (a b : Nat) : add64 a b = (a + b) % M64 := rfl

theorem mul64_eq_mod (a b : Nat) : mul64 a b = (a * b) % M64 := rfl

/-- Numeric value of one hexadecimal character, as Python's `int(-, 16)`
assigns it (other characters never occur in a hex digest and are given
value 0, which keeps the function total). -/
def hexVal (c : Char) : Nat :=
  if 48 ≤ c.toNat ∧ c.toNat ≤ 57 then c.toNat - 48
  else if 97 ≤ c.toNat ∧ c.toNat ≤ 102 then c.toNat - 87
  else if 65 ≤ c.toNat ∧ c.toNat ≤ 70 then c.toNat - 55
  else 0

theorem hexVal_lt (c : Char) : hexVal c < 16 := by
  unfold hexVal
  split_ifs <;> omega

/-- Base-16 parse of a character list, as Python's `int(s, base=16)`
computes it on a hexadecimal string (most significant digit first). -/
def parseHexList (l : List Char) : Nat :=
  l.foldl (fun a c => 16 * a + hexVal c) 0

theorem parseHexList_foldl_lt (l : List Char) :
    ∀ k a : Nat, a < 16 ^ k → l.foldl (fun a c => 16 * a + hexVal c) a < 16 ^ (k + l.length) := by
  induction l with
  | nil => intro k a ha; simpa using ha
  | cons c cs ih =>
    intro k a ha
    simp only [List.foldl_cons, List.length_cons]
    have h1 : 16 * a + hexVal c < 16 ^ (k + 1) := by
      have hv := hexVal_lt c
      have h2 : 16 * a + hexVal c < 16 * (a + 1) := by omega
      calc 16 * a + hexVal c < 16 * (a + 1) := h2
        _ ≤ 16 * 16 ^ k := Nat.mul_le_mul_left 16 ha
        _ = 16 ^ (k + 1) := by rw [Nat.pow_succ, Nat.mul_comm]
    have h3 := ih (k + 1) (16 * a + hexVal c) h1
    have harr : k + 1 + cs.length = k + (cs.length + 1) := by omega
    rw [harr] at h3
    exact h3

theorem parseHexList_lt (l : List Char) : parseHexList l < 16 ^ l.length := by
  have := parseHexList_foldl_lt (k := 0) l 0 (by decide)
  simpa using this

/-- Python's extended slice `s[:-(n + 1):-1]` on a character list: walk
from the last index downward, taking at most `n` characters (exactly the
index sequence `len-1, len-2, ...` that the CPython slice with negative
step and stop `-(n + 1)` produces). -/
def pyRevSlice (l : List Char) (n : Nat) : List Char :=
  (List.range (min n l.length)).map (fun k => l.getD (l.length - 1 - k) ('x'))

theorem pyRevSlice_length (l : List Char) (n : Nat) :
    (pyRevSlice l n).length = min n l.length := by
  simp [pyRevSlice]

/-- The slice `s[:-(n + 1):-1]` is the last `n` characters of `s`, in
reverse order. -/
theorem pyRevSlice_eq_reverse_drop (l : List Char) (n : Nat) :
    pyRevSlice l n = (l.drop (l.length - n)).reverse := by
  apply List.ext_getElem
  · simp [pyRevSlice]
    omega
  · intro i h1 h2
    simp only [pyRevSlice, List.getElem_map, List.getElem_range, List.getElem_reverse,
      List.getElem_drop]
    simp only [pyRevSlice, List.length_map, List.length_range] at h1
    have hl : 0 < l.length := by omega
    have hidx : l.length - 1 - i < l.length := by omega
    rw [List.getD_eq_getElem l ('x') hidx]
    congr 1
    simp only [List.length_reverse, List.length_drop] at h2 ⊢
    omega

/-- Function `create_seed` of `seeds.py`:
`int(hashlib.sha256(bytes(str(val), "utf-8")).hexdigest()[:-(n_hex + 1):-1], base=16)`.
The composite `hashlib.sha256(...).hexdigest()` applied to the decimal
text of `val` is the parameter `H`. -/
def create_seed (H : String → String) (val : Nat) (n_hex : Nat) : Nat :=
  parseHexList (pyRevSlice (H (Nat.repr val)).data n_hex)

/-- Modelled from the spec: `digest_to_u64` of section 4.2, whose steps
read: render `value` as decimal ASCII text, hash it (the hash rendered
as a hex string is `H`), take the last `hex_chars` characters of the hex
digest in reverse order, and parse that substring as a base-16 integer. -/
def digest_to_u64 (H : String → String) (value : Nat) (hex_chars : Nat) : Nat :=
  parseHexList ((((H (Nat.repr value)).data).drop ((H (Nat.repr value)).data.length - hex_chars)).reverse)

/-- C2: `digest_to_u64(value, hex_chars)` equals the integer obtained by
rendering `value` as decimal ASCII text, hashing, rendering the digest in
hex, taking the last `hex_chars` characters in reverse order and parsing
them base-16; and the same input always yields the same output. -/
theorem c2_digest_mixer (H : String → String) (value hex_chars : Nat) :
    create_seed H value hex_chars = digest_to_u64 H value hex_chars ∧
    create_seed H value hex_chars = create_seed H value hex_chars := by
  constructor
  · unfold create_seed digest_to_u64
    rw [pyRevSlice_eq_reverse_drop]
  · rfl

/-- Process-wide context set up by the producers' `setup` hooks: the
prime table `columnflow.util.primes` (stored as `np.array(primes,
dtype=np.uint64)`) and the SHA-256 hex-digest function of `hashlib`
(composed with the decimal rendering it is applied to). -/
structure Ctx where
  primes : List Nat
  sha256hex : String → String

/-- Operation `prime_at(i)` of the spec: `self.primes[i % len(self.primes)]`. -/
def primeAt (ctx : Ctx) (i : Nat) : Nat :=
  ctx.primes.getD (i % ctx.primes.length) 0

/-- Direct table indexing `self.primes[i]` (used by the source at the
fixed positions 3, 5, 7 and 50). -/
def primeIdx (ctx : Ctx) (i : Nat) : Nat :=
  ctx.primes.getD i 0

theorem primeIdx_eq_primeAt (ctx : Ctx) (i : Nat) (h : i < ctx.primes.length) :
    primeIdx ctx i = primeAt ctx i := by
  unfold primeIdx primeAt
  rw [Nat.mod_eq_of_lt h]

/-- The collections whose object counts feed the global scalar pass. -/
inductive Col where
  | Jet | FatJet | SubJet | Photon | Muon | Electron | Tau | SV | GenJet | GenPart
deriving DecidableEq

def colName : Col → String
  | Col.Jet => "Jet"
  | Col.FatJet => "FatJet"
  | Col.SubJet => "SubJet"
  | Col.Photon => "Photon"
  | Col.Muon => "Muon"
  | Col.Electron => "Electron"
  | Col.Tau => "Tau"
  | Col.SV => "SV"
  | Col.GenJet => "GenJet"
  | Col.GenPart => "GenPart"

/-- The canonical collection order of the source:
`["Jet", "FatJet", "SubJet", "Photon", "Muon", "Electron", "Tau", "SV"]`,
extended by `["GenJet", "GenPart"]` when the dataset is simulated. -/
def collectionsList (is_mc : Bool) : List Col :=
  [Col.Jet, Col.FatJet, Col.SubJet, Col.Photon, Col.Muon, Col.Electron, Col.Tau, Col.SV] ++
    (if is_mc then [Col.GenJet, Col.GenPart] else [])

/-- The per-object integer fields used by the object aggregate pass. -/
inductive ObjField where
  | eJetIdx | eSeediPhiOriY | tJetIdx | tDecayMode | mJetIdx | mNStations
  | jNConstituents | jNElectrons | jNMuons
deriving DecidableEq

/-- The `object_fields` list of the source, in its order:
`["Electron.jetIdx", "Electron.seediPhiOriY", "Tau.jetIdx", "Tau.decayMode",
"Muon.jetIdx", "Muon.nStations", "Jet.nConstituents", "Jet.nElectrons",
"Jet.nMuons"]`. -/
def object_fields : List ObjField :=
  [ObjField.eJetIdx, ObjField.eSeediPhiOriY, ObjField.tJetIdx, ObjField.tDecayMode,
    ObjField.mJetIdx, ObjField.mNStations, ObjField.jNConstituents, ObjField.jNElectrons,
    ObjField.jNMuons]

/-- Batch-wide presence metadata: which optional fields and collections
exist in the events chunk (`apply_field` returns non-`None`), and
whether the dataset is simulated (`self.dataset_inst.is_mc`). -/
structure Presence where
  pileup_nPU : Bool
  jet : Bool
  fatjet : Bool
  subjet : Bool
  photon : Bool
  muon : Bool
  electron : Bool
  tau : Bool
  sv : Bool
  genjet : Bool
  genpart : Bool
  eJetIdx : Bool
  eSeediPhiOriY : Bool
  tJetIdx : Bool
  tDecayMode : Bool
  mJetIdx : Bool
  mNStations : Bool
  jNConstituents : Bool
  jNElectrons : Bool
  jNMuons : Bool
  is_mc : Bool
deriving DecidableEq

def colPresent (p : Presence) : Col → Bool
  | Col.Jet => p.jet
  | Col.FatJet => p.fatjet
  | Col.SubJet => p.subjet
  | Col.Photon => p.photon
  | Col.Muon => p.muon
  | Col.Electron => p.electron
  | Col.Tau => p.tau
  | Col.SV => p.sv
  | Col.GenJet => p.genjet
  | Col.GenPart => p.genpart

def objPresent (p : Presence) : ObjField → Bool
  | ObjField.eJetIdx => p.eJetIdx
  | ObjField.eSeediPhiOriY => p.eSeediPhiOriY
  | ObjField.tJetIdx => p.tJetIdx
  | ObjField.tDecayMode => p.tDecayMode
  | ObjField.mJetIdx => p.mJetIdx
  | ObjField.mNStations => p.mNStations
  | ObjField.jNConstituents => p.jNConstituents
  | ObjField.jNElectrons => p.jNElectrons
  | ObjField.jNMuons => p.jNMuons

/-- One jet, with the integer fields the seed pipeline reads. -/
structure JetObj where
  nConstituents : Nat
  nElectrons : Nat
  nMuons : Nat
deriving DecidableEq

structure ElectronObj where
  jetIdx : Nat
  seediPhiOriY : Nat
deriving DecidableEq

structure MuonObj where
  jetIdx : Nat
  nStations : Nat
deriving DecidableEq

structure TauObj where
  jetIdx : Nat
  decayMode : Nat
deriving DecidableEq

/-- One event of the columnar batch: the required scalars, the optional
pileup scalar, the object collections (those whose per-object fields are
hashed keep their objects, those used only for counting keep their
count), plus the extra scalar columns added by `set_ak_column` and the
per-jet seed column of the jet producer. -/
structure EventData where
  run : Nat
  luminosityBlock : Nat
  event : Nat
  nPU : Nat
  jets : List JetObj
  electrons : List ElectronObj
  muons : List MuonObj
  taus : List TauObj
  nPhoton : Nat
  nSV : Nat
  nFatJet : Nat
  nSubJet : Nat
  nGenJet : Nat
  nGenPart : Nat
  extra : List (String × Nat)
  jetDetSeed : Option (List Nat)
deriving DecidableEq

/-- The seed-relevant physics content of an event: everything except the
derived columns (`extra`, `jetDetSeed`). -/
structure Core where
  run : Nat
  luminosityBlock : Nat
  event : Nat
  nPU : Nat
  jets : List JetObj
  electrons : List ElectronObj
  muons : List MuonObj
  taus : List TauObj
  nPhoton : Nat
  nSV : Nat
  nFatJet : Nat
  nSubJet : Nat
  nGenJet : Nat
  nGenPart : Nat
deriving DecidableEq

def core (e : EventData) : Core :=
  ⟨e.run, e.luminosityBlock, e.event, e.nPU, e.jets, e.electrons, e.muons, e.taus,
    e.nPhoton, e.nSV, e.nFatJet, e.nSubJet, e.nGenJet, e.nGenPart⟩

/-- Operation `set_ak_column(events, name, value)` for a fresh or overwritten
scalar column: the new pair shadows any earlier one of the same name. -/
def setCol (n : String) (v : Nat) (e : EventData) : EventData :=
  { e with extra := (n, v) :: e.extra }

/-- Read a scalar column previously stored with `setCol`. -/
def getCol (n : String) (e : EventData) : Option Nat :=
  e.extra.lookup n

theorem getCol_setCol_same (n : String) (v : Nat) (e : EventData) :
    getCol n (setCol n v e) = some v := by
  simp [getCol, setCol, List.lookup]

theorem getCol_setCol_other (n m : String) (v : Nat) (e : EventData) (h : n ≠ m) :
    getCol n (setCol m v e) = getCol n e := by
  have hb : (n == m) = false := by simp [h]
  simp [getCol, setCol, List.lookup, hb]

theorem core_setCol (n : String) (v : Nat) (e : EventData) :
    core (setCol n v e) = core e := rfl

/-- Count `ak.num(Route(col).apply(events), axis=1)`: the object count of a
collection in one event. -/
def countOf (e : EventData) : Col → Nat
  | Col.Jet => e.jets.length
  | Col.FatJet => e.nFatJet
  | Col.SubJet => e.nSubJet
  | Col.Photon => e.nPhoton
  | Col.Muon => e.muons.length
  | Col.Electron => e.electrons.length
  | Col.Tau => e.taus.length
  | Col.SV => e.nSV
  | Col.GenJet => e.nGenJet
  | Col.GenPart => e.nGenPart

/-- The same count read off the seed-relevant projection. -/
def countOfCore (c : Core) : Col → Nat
  | Col.Jet => c.jets.length
  | Col.FatJet => c.nFatJet
  | Col.SubJet => c.nSubJet
  | Col.Photon => c.nPhoton
  | Col.Muon => c.muons.length
  | Col.Electron => c.electrons.length
  | Col.Tau => c.taus.length
  | Col.SV => c.nSV
  | Col.GenJet => c.nGenJet
  | Col.GenPart => c.nGenPart

theorem countOf_eq_core (e : EventData) (c : Col) : countOf e c = countOfCore (core e) c := by
  cases c <;> rfl

def countName (c : Col) : String := "n" ++ colName c

/-- Constant `value_offset = 3` of the source. -/
def value_offset : Nat := 3

/-- Constant `prime_offset = 15` of the source. -/
def prime_offset : Nat := 15

def detSeedName : String := "deterministic_seed"

/-- The integer handed to the first digest (lines 54-59):
`primes[7] * event + primes[5] * run + primes[3] * luminosityBlock`,
each factor cast to `np.uint64` and combined with wrapping arithmetic. -/
def bootstrapVal (ctx : Ctx) (e : EventData) : Nat :=
  add64
    (add64 (mul64 (primeIdx ctx 7) (e.event % M64)) (mul64 (primeIdx ctx 5) (e.run % M64)))
    (mul64 (primeIdx ctx 3) (e.luminosityBlock % M64))

/-- Step 1 of the event seed: `create_seed(..., n_hex=14)`, cast to
`np.uint64` by the vectorized wrapper. -/
def bootstrapSeed (ctx : Ctx) (e : EventData) : Nat :=
  (create_seed ctx.sha256hex (bootstrapVal ctx e) 14) % M64

/-- Lines 74-78: for each present collection, cache its object count as
the `uint64` column `n{col}` via `set_ak_column`. -/
def setCountsAux (p : Presence) (cs : List Col) (e : EventData) : EventData :=
  cs.foldl
    (fun ev c => if colPresent p c then setCol (countName c) (countOf ev c % M64) ev else ev) e

def setCounts (p : Presence) (e : EventData) : EventData :=
  setCountsAux p (collectionsList p.is_mc) e

/-- A feature of the `global_fields` list: the optional flat field
`Pileup.nPU`, or a cached count column `n{col}`. -/
inductive GlobalField where
  | nPU
  | count (c : Col)
deriving DecidableEq

/-- The `global_fields` list as the source builds it (lines 63-78):
`Pileup.nPU` if present, then one count per present collection in
canonical order. -/
def global_fields (p : Presence) : List GlobalField :=
  (if p.pileup_nPU then [GlobalField.nPU] else []) ++
    ((collectionsList p.is_mc).filter (fun c => colPresent p c)).map GlobalField.count

/-- Read `Route(f).apply(events)` for a global field, on the events array that
already carries the cached count columns. -/
def globalValue (e : EventData) : GlobalField → Nat
  | GlobalField.nPU => e.nPU
  | GlobalField.count c => (getCol (countName c) e).getD 0

/-- Lines 81-86: `for i, f in enumerate(global_fields, value_offset)`,
with `values = Route(f).apply(events) + i`,
`primes = self.primes[(values + prime_offset) % len(self.primes)]` and
`seed = seed + primes * values`, all in `np.uint64`. -/
def globalLoop (ctx : Ctx) (gv : GlobalField → Nat) : Nat → List GlobalField → Nat → Nat
  | _, [], s => s
  | i, f :: fs, s =>
    let v := add64 (gv f) i
    globalLoop ctx gv (i + 1) fs (add64 s (mul64 (primeAt ctx (add64 v prime_offset)) v))

/-- Per-object values `Route(f).apply(events)` of one event for each
designated object-level field. -/
def objValues (e : EventData) : ObjField → List Nat
  | ObjField.eJetIdx => e.electrons.map ElectronObj.jetIdx
  | ObjField.eSeediPhiOriY => e.electrons.map ElectronObj.seediPhiOriY
  | ObjField.tJetIdx => e.taus.map TauObj.jetIdx
  | ObjField.tDecayMode => e.taus.map TauObj.decayMode
  | ObjField.mJetIdx => e.muons.map MuonObj.jetIdx
  | ObjField.mNStations => e.muons.map MuonObj.nStations
  | ObjField.jNConstituents => e.jets.map JetObj.nConstituents
  | ObjField.jNElectrons => e.jets.map JetObj.nElectrons
  | ObjField.jNMuons => e.jets.map JetObj.nMuons

/-- Indices `ak.local_index(values) + 1`: the 1-based local indices. -/
def locsOf (n : Nat) : List Nat := List.range' 1 n

/-- Lines 97-103: `values = values + i`, `loc = local_index + 1`,
`hashed = num(values) + sum(values * loc) + sum(values ** 2 * loc)`,
every elementwise operation and accumulation wrapping in 64 bits. -/
def hashedOf (i : Nat) (vals : List Nat) : Nat :=
  let shifted := vals.map (fun v => add64 v i)
  let loc := locsOf vals.length
  add64
    (add64 (vals.length % M64) ((List.zipWith mul64 shifted loc).foldl add64 0))
    ((List.zipWith (fun v l => mul64 (mul64 v v) l) shifted loc).foldl add64 0)

/-- Lines 94-105: `for i, f in enumerate(object_fields, value_offset)`,
skipping an absent field inside the loop body (so `i` advances on
absent fields too), with
`primes = self.primes[(hashed + prime_offset) % len(self.primes)]` and
`seed = seed + primes * hashed`. -/
def objectLoop (ctx : Ctx) (p : Presence) (ov : ObjField → List Nat) :
    Nat → List ObjField → Nat → Nat
  | _, [], s => s
  | i, f :: fs, s =>
    if objPresent p f then
      let hashed := hashedOf i (ov f)
      objectLoop ctx p ov (i + 1) fs
        (add64 s (mul64 (primeAt ctx (add64 hashed prime_offset)) hashed))
    else
      objectLoop ctx p ov (i + 1) fs s

/-- The producer `deterministic_event_seeds` (lines 42-117), applied to
one event of the batch (every array operation of the source is
elementwise): bootstrap digest, count caching, global scalar pass,
object aggregate pass, finalization digest, and storage of the
`deterministic_seed` column. -/
def deterministic_event_seeds (ctx : Ctx) (p : Presence) (e : EventData) : EventData :=
  let s0 := bootstrapSeed ctx e
  let e1 := setCounts p e
  let s1 := globalLoop ctx (globalValue e1) value_offset (global_fields p) s0
  let s2 := objectLoop ctx p (objValues e1) value_offset object_fields s1
  setCol detSeedName ((create_seed ctx.sha256hex s2 16) % M64) e1

/-- The `deterministic_seed` value the event producer stores. -/
def eventSeedVal (ctx : Ctx) (p : Presence) (e : EventData) : Nat :=
  (getCol detSeedName (deterministic_event_seeds ctx p e)).getD 0

/-- Lines 168-174, for one jet at 0-based local index `j` of an event
with event seed `E`: `primes = self.primes[E % len(self.primes)]`,
`raw = E + primes * (j + self.primes[50])`, then `create_seed(raw)`
with the default `n_hex=16`, cast to `np.uint64`. -/
def jetSeedOf (ctx : Ctx) (E j : Nat) : Nat :=
  (create_seed ctx.sha256hex
    (add64 E (mul64 (primeAt ctx E) (add64 j (primeIdx ctx 50)))) 16) % M64

def jetMissingMsg : String := "FieldNotFoundError: no field named Jet"

/-- The producer `deterministic_jet_seeds` (lines 158-185): it first
re-invokes `deterministic_event_seeds`, then reads `events.Jet` -- which
raises when the Jet collection is absent from the batch -- and stores
one seed per jet in the `Jet.deterministic_seed` column. -/
def deterministic_jet_seeds (ctx : Ctx) (p : Presence) (e : EventData) :
    Except String EventData :=
  let e1 := deterministic_event_seeds ctx p e
  if p.jet then
    let E := (getCol detSeedName e1).getD 0
    Except.ok { e1 with jetDetSeed := some ((List.range e1.jets.length).map (jetSeedOf ctx E)) }
  else
    Except.error jetMissingMsg

/-- The wrapper producer `deterministic_seeds` (lines 199-213): event
seeds first, then jet seeds (which re-run the event seeds). -/
def deterministic_seeds (ctx : Ctx) (p : Presence) (e : EventData) :
    Except String EventData :=
  deterministic_jet_seeds ctx p (deterministic_event_seeds ctx p e)

theorem globalLoop_eq_enumFold (ctx : Ctx) (gv : GlobalField → Nat) :
    ∀ (fs : List GlobalField) (i s : Nat),
      globalLoop ctx gv i fs s =
        (fs.enumFrom i).foldl
          (fun s x =>
            add64 s (mul64 (primeAt ctx (add64 (add64 (gv x.2) x.1) prime_offset))
              (add64 (gv x.2) x.1))) s := by
  intro fs
  induction fs with
  | nil => intro i s; rfl
  | cons f fs ih =>
    intro i s
    simp only [globalLoop, List.enumFrom_cons, List.foldl_cons]
    exact ih (i + 1) _

theorem objectLoop_eq_enumFold (ctx : Ctx) (p : Presence) (ov : ObjField → List Nat) :
    ∀ (fs : List ObjField) (i s : Nat),
      objectLoop ctx p ov i fs s =
        ((fs.enumFrom i).filter (fun x => objPresent p x.2)).foldl
          (fun s x =>
            add64 s (mul64 (primeAt ctx (add64 (hashedOf x.1 (ov x.2)) prime_offset))
              (hashedOf x.1 (ov x.2)))) s := by
  intro fs
  induction fs with
  | nil => intro i s; rfl
  | cons f fs ih =>
    intro i s
    cases h : objPresent p f
    · simp only [objectLoop, List.enumFrom_cons, List.filter_cons, h, Bool.false_eq_true,
        if_false]
      exact ih (i + 1) _
    · simp only [objectLoop, List.enumFrom_cons, List.filter_cons, h, if_true,
        List.foldl_cons]
      exact ih (i + 1) _

theorem core_setCountsAux (p : Presence) :
    ∀ (cs : List Col) (e : EventData), core (setCountsAux p cs e) = core e := by
  intro cs
  induction cs with
  | nil => intro e; rfl
  | cons c cs ih =>
    intro e
    cases h : colPresent p c
    · simp only [setCountsAux, List.foldl_cons, h, Bool.false_eq_true, if_false]
      exact ih e
    · simp only [setCountsAux, List.foldl_cons, h, if_true]
      exact ih (setCol (countName c) (countOf e c % M64) e)

theorem countOf_setCountsAux (p : Presence) (cs : List Col) (e : EventData) (c : Col) :
    countOf (setCountsAux p cs e) c = countOf e c := by
  rw [countOf_eq_core, countOf_eq_core, core_setCountsAux]

theorem extra_setCountsAux (p : Presence) :
    ∀ (cs : List Col) (e : EventData),
      (setCountsAux p cs e).extra =
        (((cs.filter (fun c => colPresent p c)).map
          (fun c => (countName c, countOf e c % M64))).reverse) ++ e.extra := by
  intro cs
  induction cs with
  | nil => intro e; rfl
  | cons c cs ih =>
    intro e
    cases h : colPresent p c
    · simp only [setCountsAux, List.foldl_cons, List.filter_cons, h, Bool.false_eq_true,
        if_false]
      exact ih e
    · simp only [setCountsAux, List.foldl_cons, List.filter_cons, h, if_true]
      have hih := ih (setCol (countName c) (countOf e c % M64) e)
      simp only [setCountsAux] at hih
      rw [hih]
      simp only [setCol, List.map_cons, List.reverse_cons, List.append_assoc,
        List.singleton_append]
      congr 2

theorem getCol_setCountsAux_of_notMem (p : Presence) (n : String) :
    ∀ (cs : List Col) (e : EventData), (∀ c ∈ cs, countName c ≠ n) →
      getCol n (setCountsAux p cs e) = getCol n e := by
  intro cs
  induction cs with
  | nil => intro e _; rfl
  | cons c cs ih =>
    intro e hn
    cases h : colPresent p c
    · simp only [setCountsAux, List.foldl_cons, h, Bool.false_eq_true, if_false]
      exact ih e (fun c' hc' => hn c' (List.mem_cons_of_mem _ hc'))
    · simp only [setCountsAux, List.foldl_cons, h, if_true]
      have h1 := ih (setCol (countName c) (countOf e c % M64) e)
        (fun c' hc' => hn c' (List.mem_cons_of_mem _ hc'))
      simp only [setCountsAux] at h1
      rw [h1, getCol_setCol_other _ _ _ _ (fun hnm => hn c (List.mem_cons_self _ _) hnm.symm)]

theorem getCol_setCountsAux_of_mem (p : Presence) :
    ∀ (cs : List Col) (e : EventData) (c : Col), c ∈ cs → colPresent p c = true →
      (cs.map countName).Nodup →
      getCol (countName c) (setCountsAux p cs e) = some (countOf e c % M64) := by
  intro cs
  induction cs with
  | nil => intro e c hc; exact absurd hc (List.not_mem_nil c)
  | cons c0 cs ih =>
    intro e c hc hpres hnodup
    simp only [List.map_cons, List.nodup_cons] at hnodup
    rcases List.mem_cons.mp hc with hc0 | hcs
    · subst hc0
      simp only [setCountsAux, List.foldl_cons, hpres, if_true]
      have hrest : ∀ c' ∈ cs, countName c' ≠ countName c := by
        intro c' hc' heq
        exact hnodup.1 (heq ▸ List.mem_map_of_mem countName hc')
      have h1 := getCol_setCountsAux_of_notMem p (countName c) cs
        (setCol (countName c) (countOf e c % M64) e) hrest
      simp only [setCountsAux] at h1
      rw [h1, getCol_setCol_same]
    · cases h : colPresent p c0
      · simp only [setCountsAux, List.foldl_cons, h, Bool.false_eq_true, if_false]
        exact ih e c hcs hpres hnodup.2
      · simp only [setCountsAux, List.foldl_cons, h, if_true]
        have h1 := ih (setCol (countName c0) (countOf e c0 % M64) e) c hcs hpres hnodup.2
        simp only [setCountsAux] at h1
        rw [h1]
        rw [countOf_eq_core, core_setCol, ← countOf_eq_core]

theorem countName_nodup (is_mc : Bool) : ((collectionsList is_mc).map countName).Nodup := by
  cases is_mc <;> decide

theorem detSeedName_not_countName (c : Col) : countName c ≠ detSeedName := by
  cases c <;> decide

def globalValueCore (c : Core) : GlobalField → Nat
  | GlobalField.nPU => c.nPU
  | GlobalField.count col => countOfCore c col % M64

def objValuesCore (c : Core) : ObjField → List Nat
  | ObjField.eJetIdx => c.electrons.map ElectronObj.jetIdx
  | ObjField.eSeediPhiOriY => c.electrons.map ElectronObj.seediPhiOriY
  | ObjField.tJetIdx => c.taus.map TauObj.jetIdx
  | ObjField.tDecayMode => c.taus.map TauObj.decayMode
  | ObjField.mJetIdx => c.muons.map MuonObj.jetIdx
  | ObjField.mNStations => c.muons.map MuonObj.nStations
  | ObjField.jNConstituents => c.jets.map JetObj.nConstituents
  | ObjField.jNElectrons => c.jets.map JetObj.nElectrons
  | ObjField.jNMuons => c.jets.map JetObj.nMuons

def bootstrapValCore (ctx : Ctx) (c : Core) : Nat :=
  add64
    (add64 (mul64 (primeIdx ctx 7) (c.event % M64)) (mul64 (primeIdx ctx 5) (c.run % M64)))
    (mul64 (primeIdx ctx 3) (c.luminosityBlock % M64))

/-- The event seed as a pure function of the seed-relevant physics
content of a single event (and the batch-wide presence metadata): the
composition of the bootstrap digest, the global scalar pass on the
fresh counts, the object aggregate pass and the finalization digest. -/
def seedPure (ctx : Ctx) (p : Presence) (c : Core) : Nat :=
  let s0 := (create_seed ctx.sha256hex (bootstrapValCore ctx c) 14) % M64
  let s1 := globalLoop ctx (globalValueCore c) value_offset (global_fields p) s0
  let s2 := objectLoop ctx p (objValuesCore c) value_offset object_fields s1
  (create_seed ctx.sha256hex s2 16) % M64

theorem bootstrapVal_eq_core (ctx : Ctx) (e : EventData) :
    bootstrapVal ctx e = bootstrapValCore ctx (core e) := rfl

theorem objValues_eq_core (e : EventData) : ∀ f, objValues e f = objValuesCore (core e) f := by
  intro f
  cases f <;> rfl

theorem globalLoop_congr (ctx : Ctx) (gv1 gv2 : GlobalField → Nat) :
    ∀ (fs : List GlobalField) (i s : Nat), (∀ f ∈ fs, gv1 f = gv2 f) →
      globalLoop ctx gv1 i fs s = globalLoop ctx gv2 i fs s := by
  intro fs
  induction fs with
  | nil => intro i s _; rfl
  | cons f fs ih =>
    intro i s hf
    simp only [globalLoop, hf f (List.mem_cons_self _ _)]
    exact ih (i + 1) _ (fun g hg => hf g (List.mem_cons_of_mem _ hg))

theorem objectLoop_congr (ctx : Ctx) (p : Presence) (ov1 ov2 : ObjField → List Nat) :
    ∀ (fs : List ObjField) (i s : Nat), (∀ f ∈ fs, ov1 f = ov2 f) →
      objectLoop ctx p ov1 i fs s = objectLoop ctx p ov2 i fs s := by
  intro fs
  induction fs with
  | nil => intro i s _; rfl
  | cons f fs ih =>
    intro i s hf
    cases h : objPresent p f
    · simp only [objectLoop, h, Bool.false_eq_true, if_false]
      exact ih (i + 1) _ (fun g hg => hf g (List.mem_cons_of_mem _ hg))
    · simp only [objectLoop, h, if_true, hf f (List.mem_cons_self _ _)]
      exact ih (i + 1) _ (fun g hg => hf g (List.mem_cons_of_mem _ hg))

theorem mem_global_fields_count (p : Presence) (c : Col) :
    GlobalField.count c ∈ global_fields p →
      c ∈ collectionsList p.is_mc ∧ colPresent p c = true := by
  intro h
  unfold global_fields at h
  rcases List.mem_append.mp h with h1 | h2
  · by_cases hp : p.pileup_nPU <;> simp [hp] at h1
  · rcases List.mem_map.mp h2 with ⟨c1, hc1, heq⟩
    injection heq with h3
    subst h3
    exact ⟨(List.mem_filter.mp hc1).1, (List.mem_filter.mp hc1).2⟩

theorem eventSeed_eq_seedPure (ctx : Ctx) (p : Presence) (e : EventData) :
    getCol detSeedName (deterministic_event_seeds ctx p e) = some (seedPure ctx p (core e)) := by
  have hgv : ∀ f ∈ global_fields p,
      globalValue (setCounts p e) f = globalValueCore (core e) f := by
    intro f hf
    cases f with
    | nPU =>
      show (setCounts p e).nPU = (core e).nPU
      have hc : core (setCounts p e) = core e := core_setCountsAux p _ e
      exact congrArg Core.nPU hc
    | count c =>
      rcases mem_global_fields_count p c hf with ⟨hmem, hpres⟩
      have hlook := getCol_setCountsAux_of_mem p (collectionsList p.is_mc) e c hmem hpres
        (countName_nodup p.is_mc)
      show (getCol (countName c) (setCounts p e)).getD 0 = countOfCore (core e) c % M64
      rw [setCounts, hlook, Option.getD_some, countOf_eq_core]
  have hov : ∀ f ∈ object_fields, objValues (setCounts p e) f = objValuesCore (core e) f := by
    intro f _
    rw [objValues_eq_core, setCounts, core_setCountsAux]
  have hloop :
      objectLoop ctx p (objValues (setCounts p e)) value_offset object_fields
        (globalLoop ctx (globalValue (setCounts p e)) value_offset (global_fields p)
          (bootstrapSeed ctx e)) =
      objectLoop ctx p (objValuesCore (core e)) value_offset object_fields
        (globalLoop ctx (globalValueCore (core e)) value_offset (global_fields p)
          ((create_seed ctx.sha256hex (bootstrapValCore ctx (core e)) 14) % M64)) := by
    rw [globalLoop_congr ctx _ _ (global_fields p) value_offset (bootstrapSeed ctx e) hgv]
    rw [objectLoop_congr ctx p _ _ object_fields value_offset _ hov]
    rfl
  simp only [deterministic_event_seeds, seedPure, getCol_setCol_same]
  exact congrArg (fun x => some ((create_seed ctx.sha256hex x 16) % M64)) hloop

theorem core_deterministic_event_seeds (ctx : Ctx) (p : Presence) (e : EventData) :
    core (deterministic_event_seeds ctx p e) = core e := by
  simp only [deterministic_event_seeds, core_setCol]
  exact core_setCountsAux p _ e

theorem eventSeedVal_eq_seedPure (ctx : Ctx) (p : Presence) (e : EventData) :
    eventSeedVal ctx p e = seedPure ctx p (core e) := by
  unfold eventSeedVal
  rw [eventSeed_eq_seedPure]
  rfl

theorem mul64_one (a : Nat) : mul64 a 1 = a % M64 := by
  simp [mul64]

theorem create_seed_14_lt (H : String → String) (v : Nat)
    (hlen : (H (Nat.repr v)).length = 64) : create_seed H v 14 < M64 := by
  unfold create_seed
  have h := parseHexList_lt (pyRevSlice (H (Nat.repr v)).data 14)
  rw [pyRevSlice_length] at h
  have hl : (H (Nat.repr v)).data.length = 64 := hlen
  rw [hl] at h
  have h16 : (16 : Nat) ^ min 14 64 < M64 := by decide
  omega

/-- Batch-wide presence metadata with every optional field and
collection absent, for real data. -/
def pNone : Presence :=
  ⟨false, false, false, false, false, false, false, false, false, false, false,
    false, false, false, false, false, false, false, false, false, false⟩

/-- A single event with `run = 1`, `luminosityBlock = 1`, `event = 1`
and zero objects in all collections. -/
def evC1 : EventData :=
  ⟨1, 1, 1, 0, [], [], [], [], 0, 0, 0, 0, 0, 0, [], none⟩

/-- C1: for a batch of one event with `run = 1, luminosityBlock = 1,
event = 1`, no optional fields present and zero objects in all
collections, the event seed builder produces
`digest_to_u64(digest_to_u64(P[7] + P[5] + P[3], hex_chars=14),
hex_chars=16) mod 2^64`: the bootstrap digest of step 1 followed
directly by the step-4 finalization digest, with no global-scalar or
object-aggregate contribution. -/
theorem c1_end_to_end (ctx : Ctx)
    (hH : ∀ s, (ctx.sha256hex s).length = 64)
    (h7 : 7 < ctx.primes.length)
    (hsum : primeAt ctx 7 + primeAt ctx 5 + primeAt ctx 3 < M64) :
    eventSeedVal ctx pNone evC1 =
      (create_seed ctx.sha256hex
        (create_seed ctx.sha256hex (primeAt ctx 7 + primeAt ctx 5 + primeAt ctx 3) 14) 16)
        % M64 := by
  rw [eventSeedVal_eq_seedPure]
  have hseed : seedPure ctx pNone (core evC1) =
      (create_seed ctx.sha256hex
        ((create_seed ctx.sha256hex (bootstrapValCore ctx (core evC1)) 14) % M64) 16) % M64 :=
    rfl
  rw [hseed]
  have hA : bootstrapValCore ctx (core evC1) =
      primeAt ctx 7 + primeAt ctx 5 + primeAt ctx 3 := by
    show add64
        (add64 (mul64 (primeIdx ctx 7) (1 % M64)) (mul64 (primeIdx ctx 5) (1 % M64)))
        (mul64 (primeIdx ctx 3) (1 % M64)) = _
    have h1 : (1 : Nat) % M64 = 1 := by decide
    rw [h1, mul64_one, mul64_one, mul64_one]
    rw [add64_mod_left, add64_mod_right, add64_mod_right]
    rw [add64_eq_mod, add64_eq_mod, Nat.mod_add_mod]
    rw [primeIdx_eq_primeAt ctx 7 h7, primeIdx_eq_primeAt ctx 5 (by omega),
      primeIdx_eq_primeAt ctx 3 (by omega)]
    exact Nat.mod_eq_of_lt hsum
  rw [hA, Nat.mod_eq_of_lt (create_seed_14_lt ctx.sha256hex _ (hH _))]

/-- A 64-character stand-in hex digest used by the closed witnesses. -/
def hex64 : String := "0123456789abcdef0123456789abcdef0123456789abcdef0123456789abcdef"

/-- A concrete context for the closed witnesses: a 51-entry table and a
constant digest function. -/
def ctxW : Ctx := ⟨(List.range 51).map (fun k => k + 2), fun _ => hex64⟩

theorem ctxW_len (s : String) : (ctxW.sha256hex s).length = 64 := by
  show hex64.length = 64
  decide

/-- Witness for C1 at the concrete context `ctxW`. -/
theorem c1_end_to_end_witness :
    (∀ s, (ctxW.sha256hex s).length = 64) ∧ 7 < ctxW.primes.length ∧
      (primeAt ctxW 7 + primeAt ctxW 5 + primeAt ctxW 3 < M64) ∧
      eventSeedVal ctxW pNone evC1 =
        (create_seed ctxW.sha256hex
          (create_seed ctxW.sha256hex (primeAt ctxW 7 + primeAt ctxW 5 + primeAt ctxW 3) 14) 16)
          % M64 :=
  ⟨ctxW_len, by decide, by decide,
    c1_end_to_end ctxW ctxW_len (by decide) (by decide)⟩

theorem add64_assoc_mod (v i o : Nat) : add64 (add64 v i) o = (v + i + o) % M64 := by
  rw [add64_eq_mod v i, add64_mod_left, add64_eq_mod]

theorem add64_mul64 (t a b : Nat) : add64 t (mul64 a b) = (t + a * b) % M64 := by
  rw [mul64_eq_mod, add64_mod_right, add64_eq_mod]

/-- C3: in the global scalar pass, present features occupy consecutive
enumeration positions `i` from `value_offset = 3` (the `nPU` scalar
first if present, then one count per present collection in the fixed
canonical order, simulation-only collections only for simulated data),
and each present feature with raw value `v` updates the seed as
`seed := seed + prime_at((v + i + 15) mod table_len) * (v + i)`, all
additions and multiplications taken modulo `2^64`. -/
theorem c3_global_scalar_pass (ctx : Ctx) (p : Presence) (gv : GlobalField → Nat) (s : Nat) :
    globalLoop ctx gv value_offset (global_fields p) s =
      ((global_fields p).enumFrom value_offset).foldl
        (fun t x =>
          (t + primeAt ctx ((gv x.2 + x.1 + prime_offset) % M64) * ((gv x.2 + x.1) % M64))
            % M64) s
    ∧ global_fields p =
      (if p.pileup_nPU then [GlobalField.nPU] else []) ++
        ((collectionsList p.is_mc).filter (fun c => colPresent p c)).map GlobalField.count := by
  constructor
  · rw [globalLoop_eq_enumFold]
    have hstep :
        (fun (t : Nat) (x : Nat × GlobalField) =>
          add64 t (mul64 (primeAt ctx (add64 (add64 (gv x.2) x.1) prime_offset))
            (add64 (gv x.2) x.1))) =
        (fun (t : Nat) (x : Nat × GlobalField) =>
          (t + primeAt ctx ((gv x.2 + x.1 + prime_offset) % M64) * ((gv x.2 + x.1) % M64))
            % M64) := by
      funext t x
      rw [add64_assoc_mod, add64_mul64, add64_eq_mod (gv x.2) x.1]
    exact congrArg (fun f => List.foldl f s ((global_fields p).enumFrom value_offset)) hstep
  · rfl

/-- The per-event aggregate of one object field as the claim states it:
`hashed = count(values) + sum(values * loc) + sum(values^2 * loc)`, the
values shifted by the enumeration position `i`, `loc` the 1-based local
indices, all arithmetic modulo `2^64`. -/
def hashedSpec (i : Nat) (vals : List Nat) : Nat :=
  (vals.length
    + (List.zipWith (fun v l => (v + i) * l) vals (locsOf vals.length)).sum
    + (List.zipWith (fun v l => (v + i) ^ 2 * l) vals (locsOf vals.length)).sum) % M64

theorem foldl_add64 (l : List Nat) : ∀ a : Nat, l.foldl add64 (a % M64) = (a + l.sum) % M64 := by
  induction l with
  | nil => intro a; simp
  | cons b t ih =>
    intro a
    simp only [List.foldl_cons, List.sum_cons]
    rw [add64_mod_left, add64_eq_mod, ih (a + b)]
    congr 1
    omega

theorem foldl_add64_zero (l : List Nat) : l.foldl add64 0 = l.sum % M64 := by
  have h := foldl_add64 l 0
  rw [Nat.zero_mod] at h
  simpa using h

theorem zip_mul_sum_mod (i : Nat) :
    ∀ vals loc : List Nat,
      (List.zipWith mul64 (vals.map (fun v => add64 v i)) loc).sum % M64 =
      (List.zipWith (fun v l => (v + i) * l) vals loc).sum % M64 := by
  intro vals
  induction vals with
  | nil => intro loc; rfl
  | cons v vs ih =>
    intro loc
    cases loc with
    | nil => rfl
    | cons l ls =>
      simp only [List.map_cons, List.zipWith_cons_cons, List.sum_cons]
      have h1 : mul64 (add64 v i) l % M64 = ((v + i) * l) % M64 := by
        rw [Nat.mod_eq_of_lt (mul64_lt _ _)]
        show mul64 ((v + i) % M64) l = ((v + i) * l) % M64
        rw [mul64_mod_left, mul64_eq_mod]
      exact Nat.ModEq.add h1 (ih ls)

theorem zip_sq_sum_mod (i : Nat) :
    ∀ vals loc : List Nat,
      (List.zipWith (fun v l => mul64 (mul64 v v) l) (vals.map (fun v => add64 v i)) loc).sum
          % M64 =
      (List.zipWith (fun v l => (v + i) ^ 2 * l) vals loc).sum % M64 := by
  intro vals
  induction vals with
  | nil => intro loc; rfl
  | cons v vs ih =>
    intro loc
    cases loc with
    | nil => rfl
    | cons l ls =>
      simp only [List.map_cons, List.zipWith_cons_cons, List.sum_cons]
      have h1 : mul64 (mul64 (add64 v i) (add64 v i)) l % M64 = ((v + i) ^ 2 * l) % M64 := by
        rw [Nat.mod_eq_of_lt (mul64_lt _ _)]
        show mul64 (mul64 ((v + i) % M64) ((v + i) % M64)) l = ((v + i) ^ 2 * l) % M64
        rw [mul64_mod_left, mul64_mod_right, mul64_eq_mod (v + i) (v + i), mul64_mod_left,
          mul64_eq_mod, pow_two]
      exact Nat.ModEq.add h1 (ih ls)

theorem add64_chain (a b c : Nat) :
    add64 (add64 (a % M64) (b % M64)) (c % M64) = (a + b + c) % M64 := by
  rw [add64_mod_right, add64_mod_left, add64_mod_right, add64_eq_mod a b, add64_mod_left,
    add64_eq_mod]

theorem hashedOf_eq_hashedSpec (i : Nat) (vals : List Nat) :
    hashedOf i vals = hashedSpec i vals := by
  unfold hashedOf hashedSpec
  simp only [List.length_map]
  rw [foldl_add64_zero, foldl_add64_zero, add64_chain]
  exact (Nat.ModEq.add ((Nat.ModEq.refl vals.length).add (zip_mul_sum_mod i vals _))
    (zip_sq_sum_mod i vals _))

/-- C4: in the object aggregate pass, every batch-present object field
at enumeration position `i` updates the event seed as
`seed := seed + prime_at((hashed + 15) mod table_len) * hashed` with
`hashed = count(values) + sum(values * loc) + sum(values^2 * loc)`
(values shifted by `+ i`, `loc` the 1-based local indices, all
arithmetic modulo `2^64`), and an event with zero objects contributes
`hashed = 0`. -/
theorem c4_object_aggregate_pass (ctx : Ctx) (p : Presence) (ov : ObjField → List Nat)
    (s : Nat) :
    objectLoop ctx p ov value_offset object_fields s =
      ((object_fields.enumFrom value_offset).filter (fun x => objPresent p x.2)).foldl
        (fun t x =>
          (t + primeAt ctx ((hashedSpec x.1 (ov x.2) + prime_offset) % M64)
            * hashedSpec x.1 (ov x.2)) % M64) s
    ∧ ∀ i, hashedOf i [] = 0 ∧ hashedSpec i [] = 0 := by
  constructor
  · rw [objectLoop_eq_enumFold]
    have hstep :
        (fun (t : Nat) (x : Nat × ObjField) =>
          add64 t (mul64 (primeAt ctx (add64 (hashedOf x.1 (ov x.2)) prime_offset))
            (hashedOf x.1 (ov x.2)))) =
        (fun (t : Nat) (x : Nat × ObjField) =>
          (t + primeAt ctx ((hashedSpec x.1 (ov x.2) + prime_offset) % M64)
            * hashedSpec x.1 (ov x.2)) % M64) := by
      funext t x
      rw [hashedOf_eq_hashedSpec, add64_mul64, add64_eq_mod]
    exact congrArg
      (fun f => List.foldl f s
        ((object_fields.enumFrom value_offset).filter (fun x => objPresent p x.2))) hstep
  · intro i
    exact ⟨rfl, rfl⟩

theorem primeAt_mod (ctx : Ctx) (a : Nat) :
    primeAt ctx (a % ctx.primes.length) = primeAt ctx a := by
  unfold primeAt
  rw [Nat.mod_mod_of_dvd a (dvd_refl _)]

/-- Batch-wide presence with only the Jet collection present. -/
def pJet : Presence := { pNone with jet := true }

/-- C5: for every event with final event seed `E` and every jet at
0-based local index `j`, the jet producer stores the object seed
`digest_to_u64(E + prime_at(E mod table_len) * (j + prime_at(50)),
hex_chars=16) mod 2^64`, the intermediate sum and product wrapping
modulo `2^64`. -/
theorem c5_jet_seed (ctx : Ctx) (p : Presence) (e : EventData)
    (hjet : p.jet = true) (h50 : 50 < ctx.primes.length) :
    deterministic_jet_seeds ctx p e =
      Except.ok
        { deterministic_event_seeds ctx p e with
            jetDetSeed := some
              ((List.range (deterministic_event_seeds ctx p e).jets.length).map
                (fun j =>
                  (create_seed ctx.sha256hex
                    ((eventSeedVal ctx p e
                      + primeAt ctx (eventSeedVal ctx p e % ctx.primes.length)
                        * ((j + primeAt ctx 50) % M64)) % M64) 16) % M64)) } := by
  have hj : ∀ j : Nat,
      jetSeedOf ctx (eventSeedVal ctx p e) j =
        (create_seed ctx.sha256hex
          ((eventSeedVal ctx p e
            + primeAt ctx (eventSeedVal ctx p e % ctx.primes.length)
              * ((j + primeAt ctx 50) % M64)) % M64) 16) % M64 := by
    intro j
    unfold jetSeedOf
    rw [primeIdx_eq_primeAt ctx 50 h50, add64_mul64, primeAt_mod, add64_eq_mod]
  simp only [deterministic_jet_seeds, hjet, if_true]
  have hfun :
      jetSeedOf ctx ((getCol detSeedName (deterministic_event_seeds ctx p e)).getD 0) =
        fun j =>
          (create_seed ctx.sha256hex
            ((eventSeedVal ctx p e
              + primeAt ctx (eventSeedVal ctx p e % ctx.primes.length)
                * ((j + primeAt ctx 50) % M64)) % M64) 16) % M64 := by
    funext j
    exact hj j
  rw [hfun]

/-- Witness for C5 at the concrete context `ctxW` and a one-event batch
with an empty but present Jet collection. -/
theorem c5_jet_seed_witness :
    pJet.jet = true ∧ 50 < ctxW.primes.length ∧
      deterministic_jet_seeds ctxW pJet evC1 =
        Except.ok
          { deterministic_event_seeds ctxW pJet evC1 with
              jetDetSeed := some
                ((List.range (deterministic_event_seeds ctxW pJet evC1).jets.length).map
                  (fun j =>
                    (create_seed ctxW.sha256hex
                      ((eventSeedVal ctxW pJet evC1
                        + primeAt ctxW (eventSeedVal ctxW pJet evC1 % ctxW.primes.length)
                          * ((j + primeAt ctxW 50) % M64)) % M64) 16) % M64)) } :=
  ⟨rfl, by decide, c5_jet_seed ctxW pJet evC1 rfl (by decide)⟩

/-- The event producer applied to a whole batch: every array operation
of the source is elementwise, so the batch result is the per-event map. -/
def eventSeedsBatch (ctx : Ctx) (p : Presence) (evs : List EventData) : List EventData :=
  evs.map (deterministic_event_seeds ctx p)

/-- The jet producer applied to a whole batch. -/
def jetSeedsBatch (ctx : Ctx) (p : Presence) (evs : List EventData) :
    List (Except String EventData) :=
  evs.map (deterministic_jet_seeds ctx p)

/-- C6: each event's (and each object's) seed depends only on that
event's own data, the fixed enumeration order and the fixed prime
table: splitting a batch into chunks with the same batch-wide presence
yields the same per-event outputs, permuting the batch permutes the
outputs along, and the output at every position is the per-event
function of the input at that position (for the event seed, the pure
function `seedPure` of the event's own physics content). -/
theorem c6_batch_independence (ctx : Ctx) (p : Presence) :
    (∀ l1 l2 : List EventData,
      eventSeedsBatch ctx p (l1 ++ l2) = eventSeedsBatch ctx p l1 ++ eventSeedsBatch ctx p l2 ∧
      jetSeedsBatch ctx p (l1 ++ l2) = jetSeedsBatch ctx p l1 ++ jetSeedsBatch ctx p l2) ∧
    (∀ evs1 evs2 : List EventData, evs1.Perm evs2 →
      (eventSeedsBatch ctx p evs1).Perm (eventSeedsBatch ctx p evs2) ∧
      (jetSeedsBatch ctx p evs1).Perm (jetSeedsBatch ctx p evs2)) ∧
    (∀ (evs : List EventData) (i : Nat),
      (eventSeedsBatch ctx p evs)[i]? = (evs[i]?).map (deterministic_event_seeds ctx p) ∧
      (jetSeedsBatch ctx p evs)[i]? = (evs[i]?).map (deterministic_jet_seeds ctx p) ∧
      ((eventSeedsBatch ctx p evs)[i]?).map (fun r => (getCol detSeedName r).getD 0) =
        (evs[i]?).map (fun e => seedPure ctx p (core e))) := by
  refine ⟨fun l1 l2 => ⟨?_, ?_⟩, fun a b h => ⟨h.map _, h.map _⟩, fun evs i => ⟨?_, ?_, ?_⟩⟩
  · simp [eventSeedsBatch]
  · simp [jetSeedsBatch]
  · simp [eventSeedsBatch]
  · simp [jetSeedsBatch]
  · simp only [eventSeedsBatch, List.getElem?_map, Option.map_map]
    have hfe : ((fun r => (getCol detSeedName r).getD 0) ∘ deterministic_event_seeds ctx p) =
        (fun e : EventData => seedPure ctx p (core e)) :=
      funext (fun e => eventSeedVal_eq_seedPure ctx p e)
    rw [hfe]

/-- A second event, differing from `evC1` only in the `event` number. -/
def evB : EventData :=
  ⟨1, 1, 2, 0, [], [], [], [], 0, 0, 0, 0, 0, 0, [], none⟩

/-- Witness for C6: a concrete two-event batch and its transposition. -/
theorem c6_batch_independence_witness :
    ([evC1, evB].Perm [evB, evC1]) ∧
      (eventSeedsBatch ctxW pNone [evC1, evB]).Perm (eventSeedsBatch ctxW pNone [evB, evC1]) ∧
      (jetSeedsBatch ctxW pNone [evC1, evB]).Perm (jetSeedsBatch ctxW pNone [evB, evC1]) :=
  ⟨by decide,
    ((c6_batch_independence ctxW pNone).2.1 [evC1, evB] [evB, evC1] (by decide)).1,
    ((c6_batch_independence ctxW pNone).2.1 [evC1, evB] [evB, evC1] (by decide)).2⟩

/-- The `(position, field)` pairs the object aggregate pass actually
processes: the full schema list enumerated from `value_offset`, then
restricted to the present fields (`objectLoop` folds over exactly this
list, see `objectLoop_eq_enumFold`). -/
def objEnumPresent (p : Presence) : List (Nat × ObjField) :=
  (object_fields.enumFrom value_offset).filter (fun x => objPresent p x.2)

/-- The `(position, field)` pairs the claim describes for the object
pass: positions assigned by presence order, i.e. the present fields
enumerated consecutively from `value_offset`. -/
def objEnumClaim (p : Presence) : List (Nat × ObjField) :=
  (object_fields.filter (fun f => objPresent p f)).enumFrom value_offset

/-- Presence for the C7 counterexample: the Electron collection with
`Electron.seediPhiOriY` present but `Electron.jetIdx` absent. -/
def pC7 : Presence :=
  { pNone with electron := true, eSeediPhiOriY := true }

/-- One event with a single electron (`jetIdx = 0`,
`seediPhiOriY = 5`) for the C7 counterexample. -/
def eC7 : EventData :=
  ⟨1, 1, 1, 0, [], [⟨0, 5⟩], [], [], 0, 0, 0, 0, 0, 0, [], none⟩

/-- Counterexample to C7: with `Electron.jetIdx` absent but
`Electron.seediPhiOriY` present, the source keeps `seediPhiOriY` at its
fixed schema position 4 while the claim assigns it the compressed
position 3, and the object aggregate pass computes a different seed
than it would under presence-ordered positions. -/
theorem c7_counterexample :
    objEnumPresent pC7 ≠ objEnumClaim pC7 ∧
      objectLoop ctxW pC7 (objValues eC7) value_offset object_fields 0 ≠
        (objEnumClaim pC7).foldl
          (fun t x =>
            add64 t (mul64 (primeAt ctxW (add64 (hashedOf x.1 (objValues eC7 x.2)) prime_offset))
              (hashedOf x.1 (objValues eC7 x.2)))) 0 := by
  constructor
  · decide
  · decide

def gPresent (p : Presence) : GlobalField → Bool
  | GlobalField.nPU => p.pileup_nPU
  | GlobalField.count c => colPresent p c

theorem filter_map_count (p : Presence) :
    ∀ cs : List Col,
      (cs.map GlobalField.count).filter (fun f => gPresent p f) =
        (cs.filter (fun c => colPresent p c)).map GlobalField.count := by
  intro cs
  induction cs with
  | nil => rfl
  | cons c cs ih =>
    simp only [List.map_cons, List.filter_cons]
    cases h : colPresent p c
    · have hg : gPresent p (GlobalField.count c) = false := h
      simp only [hg, h, Bool.false_eq_true, if_false]
      exact ih
    · have hg : gPresent p (GlobalField.count c) = true := h
      simp only [hg, h, if_true, List.map_cons]
      rw [ih]

theorem enumFrom_map_fst {α : Type} :
    ∀ (l : List α) (n : Nat), (l.enumFrom n).map Prod.fst = List.range' n l.length := by
  intro l
  induction l with
  | nil => intro n; rfl
  | cons a l ih =>
    intro n
    simp only [List.enumFrom_cons, List.map_cons, List.length_cons, List.range'_succ]
    exact congrArg (List.cons n) (ih (n + 1))

/-- C7 as amended: in the global scalar pass a missing optional feature
is skipped with no substitution and the positions of later present
features shift down (the pass enumerates exactly the presence-filtered
schema, consecutively from `value_offset = 3`); in the object aggregate
pass an absent field is also skipped with no substitution, but its
enumeration position is still consumed -- the positions are the fixed
indices of the full schema list, and do not shift. -/
theorem c7_positions_amended (ctx : Ctx) (p : Presence) (ov : ObjField → List Nat) (s : Nat) :
    (((global_fields p).enumFrom value_offset).map Prod.fst =
        List.range' value_offset (global_fields p).length ∧
      global_fields p =
        (GlobalField.nPU :: (collectionsList p.is_mc).map GlobalField.count).filter
          (fun f => gPresent p f)) ∧
    objectLoop ctx p ov value_offset object_fields s =
      (objEnumPresent p).foldl
        (fun t x =>
          add64 t (mul64 (primeAt ctx (add64 (hashedOf x.1 (ov x.2)) prime_offset))
            (hashedOf x.1 (ov x.2)))) s := by
  refine ⟨⟨enumFrom_map_fst _ _, ?_⟩, objectLoop_eq_enumFold ctx p ov object_fields value_offset s⟩
  rw [List.filter_cons, filter_map_count]
  unfold global_fields
  cases h : p.pileup_nPU
  · have hg : gPresent p GlobalField.nPU = false := h
    simp [hg]
  · have hg : gPresent p GlobalField.nPU = true := h
    simp [hg]

/-- Counterexample to C8: on a batch from which the Jet collection is
entirely absent, the jet producer is not a no-op -- it fails with a
field-not-found error (`events.Jet` is read unguarded at line 171) and
returns no batch at all. -/
theorem c8_counterexample :
    deterministic_jet_seeds ctxW pNone evC1 = Except.error jetMissingMsg ∧
      ∀ r : EventData, deterministic_jet_seeds ctxW pNone evC1 ≠ Except.ok r := by
  refine ⟨rfl, ?_⟩
  intro r h
  rw [show deterministic_jet_seeds ctxW pNone evC1 = Except.error jetMissingMsg from rfl] at h
  exact Except.noConfusion h

/-- C8 as amended: for every batch from which the Jet collection is
entirely absent, `deterministic_jet_seeds` raises a field-not-found
error (after having computed the event seeds); it is not a no-op and
returns no `Jet.deterministic_seed`-free batch. -/
theorem c8_missing_jet_amended (ctx : Ctx) (p : Presence) (e : EventData)
    (h : p.jet = false) :
    deterministic_jet_seeds ctx p e = Except.error jetMissingMsg := by
  simp only [deterministic_jet_seeds, h, Bool.false_eq_true, if_false]

/-- Witness for the amended C8 at a concrete batch. -/
theorem c8_missing_jet_amended_witness :
    pNone.jet = false ∧ deterministic_jet_seeds ctxW pNone evC1 = Except.error jetMissingMsg :=
  ⟨rfl, c8_missing_jet_amended ctxW pNone evC1 rfl⟩

/-- Counterexample to C9: on a batch with a present (empty) Jet
collection, the event producer does not add only `deterministic_seed`;
it also leaves the cached count column `nJet` in the returned batch. -/
theorem c9_counterexample :
    (deterministic_event_seeds ctxW pJet evC1).extra.map Prod.fst ≠ [detSeedName] := by
  decide

theorem jetDetSeed_setCountsAux (p : Presence) :
    ∀ (cs : List Col) (e : EventData), (setCountsAux p cs e).jetDetSeed = e.jetDetSeed := by
  intro cs
  induction cs with
  | nil => intro e; rfl
  | cons c cs ih =>
    intro e
    cases h : colPresent p c
    · simp only [setCountsAux, List.foldl_cons, h, Bool.false_eq_true, if_false]
      exact ih e
    · simp only [setCountsAux, List.foldl_cons, h, if_true]
      exact ih (setCol (countName c) (countOf e c % M64) e)

/-- C9 as amended: on a batch without preexisting extra columns, the
event producer augments the batch with the per-event `uint64` column
`deterministic_seed` *and* one cached `uint64` count column `n{col}`
per present collection; all other per-event content (the physics core
and any per-jet column) is untouched, every stored value fits in 64
bits, and the jet producer additionally attaches exactly the per-object
`uint64` column `Jet.deterministic_seed` with one seed per jet. -/
theorem c9_frame_amended (ctx : Ctx) (p : Presence) (e : EventData) (hx : e.extra = []) :
    (deterministic_event_seeds ctx p e).extra.map Prod.fst =
      detSeedName ::
        (((collectionsList p.is_mc).filter (fun c => colPresent p c)).map countName).reverse ∧
    core (deterministic_event_seeds ctx p e) = core e ∧
    (deterministic_event_seeds ctx p e).jetDetSeed = e.jetDetSeed ∧
    (∀ kv ∈ (deterministic_event_seeds ctx p e).extra, kv.2 < M64) ∧
    (p.jet = true →
      deterministic_jet_seeds ctx p e =
        Except.ok { deterministic_event_seeds ctx p e with
          jetDetSeed := some ((List.range e.jets.length).map
            (jetSeedOf ctx (eventSeedVal ctx p e))) }) ∧
    (∀ E j : Nat, jetSeedOf ctx E j < M64) := by
  refine ⟨?_, core_deterministic_event_seeds ctx p e, ?_, ?_, ?_, ?_⟩
  · simp only [deterministic_event_seeds, setCol, List.map_cons]
    rw [show setCounts p e = setCountsAux p (collectionsList p.is_mc) e from rfl]
    rw [extra_setCountsAux p _ e, hx, List.append_nil, List.map_reverse, List.map_map]
    rfl
  · simp only [deterministic_event_seeds, setCol]
    exact jetDetSeed_setCountsAux p _ e
  · intro kv hkv
    simp only [deterministic_event_seeds, setCol, List.mem_cons] at hkv
    rcases hkv with h1 | h2
    · rw [h1]
      exact Nat.mod_lt _ M64_pos
    · rw [show setCounts p e = setCountsAux p (collectionsList p.is_mc) e from rfl,
        extra_setCountsAux p _ e, hx, List.append_nil, List.mem_reverse] at h2
      rcases List.mem_map.mp h2 with ⟨c, _, hc⟩
      rw [← hc]
      exact Nat.mod_lt _ M64_pos
  · intro hjet
    simp only [deterministic_jet_seeds, hjet, if_true]
    have hjets : (deterministic_event_seeds ctx p e).jets = e.jets :=
      congrArg Core.jets (core_deterministic_event_seeds ctx p e)
    rw [hjets]
    rfl
  · intro E j
    exact Nat.mod_lt _ M64_pos

/-- Witness for the amended C9 at a concrete batch with the Jet
collection present. -/
theorem c9_frame_amended_witness :
    evC1.extra = [] ∧
      (deterministic_event_seeds ctxW pJet evC1).extra.map Prod.fst =
        detSeedName ::
          (((collectionsList pJet.is_mc).filter (fun c => colPresent pJet c)).map
            countName).reverse :=
  ⟨rfl, (c9_frame_amended ctxW pJet evC1 rfl).1⟩

/-- C10: the event producer is idempotent on its own output -- applying
it again to a batch that already carries `deterministic_seed` and the
cached count columns reproduces exactly the same seed values -- and the
composite driver `deterministic_seeds` runs the event producer and then
the jet producer (which re-runs the event producer), so its jet seeds
are derived from the recomputed event seeds, which equal the originals. -/
theorem c10_idempotent_rerun (ctx : Ctx) (p : Presence) (e : EventData) :
    eventSeedVal ctx p (deterministic_event_seeds ctx p e) = eventSeedVal ctx p e ∧
    deterministic_seeds ctx p e =
      deterministic_jet_seeds ctx p (deterministic_event_seeds ctx p e) ∧
    (p.jet = true →
      deterministic_seeds ctx p e =
        Except.ok
          { deterministic_event_seeds ctx p (deterministic_event_seeds ctx p e) with
            jetDetSeed := some ((List.range e.jets.length).map
              (jetSeedOf ctx (eventSeedVal ctx p e))) }) := by
  have hid : eventSeedVal ctx p (deterministic_event_seeds ctx p e) = eventSeedVal ctx p e := by
    rw [eventSeedVal_eq_seedPure, eventSeedVal_eq_seedPure, core_deterministic_event_seeds]
  refine ⟨hid, rfl, ?_⟩
  intro hjet
  simp only [deterministic_seeds, deterministic_jet_seeds, hjet, if_true]
  have h1 :
      (getCol detSeedName
        (deterministic_event_seeds ctx p (deterministic_event_seeds ctx p e))).getD 0 =
        eventSeedVal ctx p e := hid
  have h2 :
      (deterministic_event_seeds ctx p (deterministic_event_seeds ctx p e)).jets = e.jets := by
    have a := congrArg Core.jets
      (core_deterministic_event_seeds ctx p (deterministic_event_seeds ctx p e))
    have b := congrArg Core.jets (core_deterministic_event_seeds ctx p e)
    exact a.trans b
  rw [h1, h2]

/-- Witness for C10 at a concrete batch with the Jet collection present. -/
theorem c10_idempotent_rerun_witness :
    pJet.jet = true ∧
      eventSeedVal ctxW pJet (deterministic_event_seeds ctxW pJet evC1) =
        eventSeedVal ctxW pJet evC1 ∧
      deterministic_seeds ctxW pJet evC1 =
        Except.ok
          { deterministic_event_seeds ctxW pJet (deterministic_event_seeds ctxW pJet evC1) with
            jetDetSeed := some ((List.range evC1.jets.length).map
              (jetSeedOf ctxW (eventSeedVal ctxW pJet evC1))) } :=
  ⟨rfl, (c10_idempotent_rerun ctxW pJet evC1).1,
    (c10_idempotent_rerun ctxW pJet evC1).2.2 rfl⟩
